import Mathlib

/-!
Verification development for the Skill Learning Orchestrator
(`acontext_core`): a shallow embedding of the KV coordination
primitives (`service/utils.py`), the agent loop
(`llm/agent/skill_learner.py`) and the two message-bus consumers
(`service/skill_learner.py`), together with theorems settling the
frozen specification claims.

Conventions of the embedding:
* opaque identifiers (UUIDs) are modelled as `Nat`;
* Python `int` values that may be negative are modelled as `Int`;
* the Redis list under key `skill_learn_pending.{P}.{L}` is modelled as
  an explicit `List SkillLearnDistilled` threaded through the functions
  (serialization to JSON and back is the identity in the model);
* fallible calls return `Result`, mirroring `acontext_core.schema.result`;
* external collaborators (the LM client, tool handlers, the DB reads of
  `_refresh_skills`, concurrent producers pushing to the pending list,
  and the renew outcomes) are oracles supplied in an environment record;
* the unbounded `while` loop is driven by a fuel parameter; exhaustion is
  a distinguished outcome separate from success and failure.
-/

namespace Acontext

/-- The `SkillLearnDistilled` message body (`schema/mq/learning`):
`{project_id, session_id, task_id, learning_space_id, distilled_context}`. -/
structure SkillLearnDistilled where
  project_id : Nat
  session_id : Nat
  task_id : Nat
  learning_space_id : Nat
  distilled_context : String
  deriving DecidableEq, Repr

/-- The `SkillLearnTask` message body consumed by the distillation consumer. -/
structure SkillLearnTask where
  project_id : Nat
  session_id : Nat
  task_id : Nat
  deriving DecidableEq, Repr

/-- The core `Result[T]` discipline: a resolved value or a rejection with a
human-readable error message (`Result.resolve` / `Result.reject`). -/
inductive Result (α : Type) where
  | resolve (data : α)
  | reject (errmsg : String)
  deriving DecidableEq, Repr

/-- Redis index semantics: a negative index counts from the end of the list
(-1 is the last element). -/
def redisIdx (len : Nat) (i : Int) : Int :=
  if i < 0 then (len : Int) + i else i

/-- Redis `LRANGE key start stop`: the sublist between the (inclusive)
effective indices, empty when the effective range is empty. -/
def lrange {α : Type} (l : List α) (start stop : Int) : List α :=
  if max (redisIdx l.length start) 0 >
      min (redisIdx l.length stop) ((l.length : Int) - 1) then []
  else
    (l.drop (max (redisIdx l.length start) 0).toNat).take
      (min (redisIdx l.length stop) ((l.length : Int) - 1) + 1 -
        max (redisIdx l.length start) 0).toNat

/-- Redis `LTRIM key start stop` keeps exactly the `LRANGE` range and
removes the rest of the list. -/
def ltrim {α : Type} (l : List α) (start stop : Int) : List α :=
  lrange l start stop

/-- `push_skill_learn_pending` (service/utils.py): `RPUSH` of one serialized
item onto the tail of the pending list of `(project, learning_space)`. -/
def push_skill_learn_pending (queue : List SkillLearnDistilled)
    (item : SkillLearnDistilled) : List SkillLearnDistilled :=
  queue ++ [item]

/-- `drain_skill_learn_pending` (service/utils.py), acting on the pending
list of one `(project, learning_space)` key.  Returns the items read, the
list left behind, and the number of KV commands issued inside the
MULTI/EXEC transaction (0 on the early return for `max_read ≤ 0`).
The read and the removal are a single atomic step of the model, which is
exactly what `pipeline(transaction=True)` guarantees in the source. -/
def drain_skill_learn_pending (queue : List SkillLearnDistilled)
    (max_read : Option Int) :
    List SkillLearnDistilled × List SkillLearnDistilled × Nat :=
  match max_read with
  | some m =>
      if m ≤ 0 then ([], queue, 0)
      else (lrange queue 0 (m - 1), ltrim queue m (-1), 2)
  | none => (lrange queue 0 (-1), [], 2)

/-! ### The TTL lock (`lock.{project}.{key}`)

The lock key is modelled as `Option Nat`: `none` when the key is absent,
`some p` when present, where `p` is a ghost annotation recording which
process wrote the sentinel (the real value is the constant string).  Events
of the concurrency model are atomic Redis commands. -/

/-- `check_redis_lock_or_set` (service/utils.py): `SET key 1 NX EX ttl`.
Returns the new key state and `True` iff the lock was newly acquired. -/
def check_redis_lock_or_set (lock : Option Nat) (pid : Nat) :
    Option Nat × Bool :=
  match lock with
  | none => (some pid, true)
  | some q => (some q, false)

/-- `release_redis_lock` (service/utils.py): `DEL key`, unconditional. -/
def release_redis_lock (_lock : Option Nat) : Option Nat :=
  none

/-- `renew_redis_lock` (service/utils.py): `SET key 1 XX EX ttl`.  Refreshes
only an existing key; returns `True` iff the lock was still live. -/
def renew_redis_lock (lock : Option Nat) : Option Nat × Bool :=
  match lock with
  | some q => (some q, true)
  | none => (none, false)

/-- One atomic command against a single lock key, performed by some process:
an acquisition attempt, an unconditional release, or a TTL expiry. -/
inductive LockEvent where
  | acquire (pid : Nat)
  | release
  | expire
  deriving DecidableEq, Repr

/-- Apply one lock event; an acquire additionally reports the boolean
returned to the calling process. -/
def lockStep (lock : Option Nat) (e : LockEvent) : Option Nat × Option Bool :=
  match e with
  | .acquire p =>
      let r := check_redis_lock_or_set lock p
      (r.1, some r.2)
  | .release => (release_redis_lock lock, none)
  | .expire => (none, none)

/-- Run a sequence of atomic lock events from an initial key state,
collecting the boolean each `check_redis_lock_or_set` call returned,
in order. -/
def lockRun (lock : Option Nat) : List LockEvent → List Bool
  | [] => []
  | e :: es =>
      match lockStep lock e with
      | (l, some b) => b :: lockRun l es
      | (l, none) => lockRun l es

/-! ### The agent loop (`llm/agent/skill_learner.py`) -/

/-- Configuration fields of `DEFAULT_CORE_CONFIG` read by the orchestrator. -/
structure CoreConfig where
  skill_learn_extra_iterations_per_context_batch : Int
  skill_learn_max_contexts_per_agent_run : Int
  skill_learn_agent_max_iterations : Int
  skill_learn_lock_ttl_seconds : Int
  deriving Repr

/-- `SkillInfo` (service/data/learning_space): the fields the agent loop
reads — a stable name, a description, and opaque file artifacts. -/
structure SkillInfo where
  name : String
  description : String
  file_paths : List String
  deriving DecidableEq, Repr

/-- Python dict insertion: replace the value at an existing key in place,
otherwise append at the end (insertion order preserved). -/
def dictInsert (d : List SkillInfo) (si : SkillInfo) : List SkillInfo :=
  if d.any (fun x => x.name = si.name) then
    d.map (fun x => if x.name = si.name then si else x)
  else d ++ [si]

/-- The dict comprehension building the skills map keyed by name. -/
def skillsDict (l : List SkillInfo) : List SkillInfo :=
  l.foldl dictInsert []

/-- `_build_available_skills_str`: one markdown bullet per skill, or a
placeholder line when the learning space has no skills yet. -/
def _build_available_skills_str (skills : List SkillInfo) : String :=
  if skills ≠ [] then
    String.intercalate "\n"
      (skills.map (fun s => "- **" ++ s.name ++ "**: " ++ s.description))
  else "(No skills in this learning space yet)"

/-- `LLMFunction` (schema/llm): a tool invocation requested by the LM. -/
structure LLMFunction where
  name : String
  arguments : String
  deriving DecidableEq, Repr

/-- `LLMToolCall` (schema/llm). -/
structure LLMToolCall where
  id : String
  function : LLMFunction
  deriving DecidableEq, Repr

/-- `LLMResponse` (schema/llm); a Python `tool_calls` of `None` is modelled
as the empty list — the loop treats both as falsy in the same way. -/
structure LLMResponse where
  content : Option String
  tool_calls : List LLMToolCall
  deriving DecidableEq, Repr

/-- Message roles used in the agent history. -/
inductive Role where
  | user
  | assistant
  | tool
  deriving DecidableEq, Repr

/-- One history message sent to the LM. -/
structure Message where
  role : Role
  content : String
  tool_call_id : Option String := none
  deriving DecidableEq, Repr

/-- Modelled from the spec: `response_to_sendable_message` (llm/complete,
not under src/) turns the LM response into the assistant history entry. -/
def response_to_sendable_message (r : LLMResponse) : Message :=
  { role := .assistant, content := r.content.getD "" }

/-- Modelled from the spec: `SkillLearnerPrompt.pack_skill_learner_input`
(llm/prompt/skill_learner, not under src/) — the initial user message with
a Task Analysis section, an Available Skills section, and the entry-drained
items appended as numbered pending contexts. -/
def pack_skill_learner_input (distilled_context : String)
    (available_skills_str : String)
    (pending : Option (List SkillLearnDistilled)) : String :=
  "## Task Analysis\n" ++ distilled_context ++
    "\n## Available Skills\n" ++ available_skills_str ++
    (match pending with
     | none => ""
     | some items =>
         String.join (items.map (fun it =>
           "\n## Pending Context\n" ++ it.distilled_context)))

/-- Modelled from the spec: `SkillLearnerPrompt.pack_incoming_contexts`
(llm/prompt/skill_learner, not under src/) — the user message injected for
contexts drained between iterations, with the refreshed skills listing. -/
def pack_incoming_contexts (new_contexts : List SkillLearnDistilled)
    (available_skills_str : String) (count_bases : Nat) : String :=
  "## Incoming Contexts (" ++ toString count_bases ++ ")\n" ++
    String.join (new_contexts.map (fun it =>
      "\n## Pending Context\n" ++ it.distilled_context)) ++
    "\n## Available Skills\n" ++ available_skills_str

/-- The observable behaviour of one tool-handler invocation
(`SKILL_LEARNER_TOOLS[name].handler`, external to the loop): a resolved
text (and whether the handler set `ctx.has_reported_thinking`), a
`Result`-level rejection, or a raised exception. -/
inductive ToolOutcome where
  | ok (text : String) (setsReported : Bool)
  | rejected (errmsg : String)
  | raised (errmsg : String)
  deriving DecidableEq, Repr

/-- Oracles for every external collaborator of one agent run:
the LM (indexed by call number), the tool handlers (indexed by dispatch
number), the registry key set of `SKILL_LEARNER_TOOLS`, concurrent
producers appending to the pending list (indexed by drain point), the DB
reads of `_refresh_skills` (indexed by refresh number), and the boolean
returned by each `renew_redis_lock` call. -/
structure AgentEnv where
  llm : Nat → Result LLMResponse
  toolRun : Nat → ToolOutcome
  registry : List String
  arrivals : Nat → List SkillLearnDistilled
  refreshedSkills : Nat → List SkillInfo
  renew : Nat → Bool

/-- The mutable state of one `skill_learner_agent` run: the pending list of
the `(project, learning_space)` key, the drained items in drain order, the
message history, the skills snapshot, the (extensible) iteration budget and
counter, the `has_reported_thinking` flag, and bookkeeping counters for the
oracles. -/
structure LoopState where
  queue : List SkillLearnDistilled
  drained : List SkillLearnDistilled
  messages : List Message
  skills : List SkillInfo
  availableSkillsStr : String
  maxIterations : Int
  alreadyIterations : Nat
  hasReportedThinking : Bool
  lmCalls : Nat
  dispatchCount : Nat
  drainPoints : Nat
  refreshCount : Nat
  renewCount : Nat
  deriving Repr

/-- The inner `for tool_call in use_tools` loop: `finish` sets the
`just_finish` flag and produces no tool message; an unknown name raises
(KeyError path); a handler rejection or exception raises; otherwise one
tool-result message is appended per non-finish call. -/
def processToolCalls (env : AgentEnv) (calls : List LLMToolCall)
    (justFinish hrt : Bool) (dispatchIdx : Nat) (acc : List Message) :
    Except String (List Message × Bool × Bool × Nat) :=
  match calls with
  | [] => .ok (acc, justFinish, hrt, dispatchIdx)
  | tc :: rest =>
      if tc.function.name = "finish" then
        processToolCalls env rest true hrt dispatchIdx acc
      else if tc.function.name ∈ env.registry then
        match env.toolRun dispatchIdx with
        | .ok t sets =>
            processToolCalls env rest justFinish (hrt || sets)
              (dispatchIdx + 1)
              (acc ++ [{ role := .tool, content := t,
                         tool_call_id := some tc.id }])
        | .rejected e =>
            .error ("Tool " ++ tc.function.name ++ " rejected: " ++ e)
        | .raised e =>
            .error ("Tool " ++ tc.function.name ++ " error: " ++ e)
      else
        .error ("Tool " ++ tc.function.name ++ " not found: KeyError")

/-- The mid-run drain block (steps after the tool dispatch of one
iteration): concurrent arrivals land on the pending list, then, if the
context cap leaves room, `drain_skill_learn_pending` runs with
`max_read = remaining`; a non-empty batch refreshes the skills snapshot,
appends a user message, extends `max_iterations` by
`skill_learn_extra_iterations_per_context_batch`, and overrides
`just_finish` to false.  Returns the new state, the surviving
`just_finish` flag, and the drained batch. -/
def midRunDrain (cfg : CoreConfig) (env : AgentEnv) (s0 : LoopState)
    (justFinish : Bool) :
    LoopState × Bool × List SkillLearnDistilled :=
  let s := { s0 with queue := s0.queue ++ env.arrivals s0.drainPoints,
                     drainPoints := s0.drainPoints + 1 }
  let remaining : Int :=
    cfg.skill_learn_max_contexts_per_agent_run - s.drained.length
  if remaining > 0 then
    let d := drain_skill_learn_pending s.queue (some remaining)
    if d.1 ≠ [] then
      let skills := skillsDict (env.refreshedSkills s.refreshCount)
      let avail := _build_available_skills_str skills
      ({ s with queue := d.2.1,
                drained := s.drained ++ d.1,
                skills := skills,
                availableSkillsStr := avail,
                refreshCount := s.refreshCount + 1,
                messages := s.messages ++
                  [{ role := .user,
                     content := pack_incoming_contexts d.1 avail
                       s.drained.length }],
                maxIterations := s.maxIterations +
                  cfg.skill_learn_extra_iterations_per_context_batch },
       false, d.1)
    else ({ s with queue := d.2.1 }, justFinish, [])
  else (s, justFinish, [])

/-- Python truthiness of the optional `lock_key` argument. -/
def pyTruthyStr : Option String → Bool
  | none => false
  | some s => s ≠ ""

/-- Python truthiness of the optional `lock_ttl_seconds` argument. -/
def pyTruthyInt : Option Int → Bool
  | none => false
  | some n => n ≠ 0

/-- The optional lock handle passed down by the skill-agent consumer. -/
structure LockArgs where
  lock_key : Option String
  lock_ttl_seconds : Option Int

/-- End of one completed iteration: increment the iteration counter, then
renew the lock (`renew_redis_lock`) when the caller passed a lock handle;
the boolean the renewal returns is discarded. -/
def finishIteration (env : AgentEnv) (la : LockArgs) (s : LoopState) :
    LoopState :=
  let s1 := { s with alreadyIterations := s.alreadyIterations + 1 }
  if pyTruthyStr la.lock_key && pyTruthyInt la.lock_ttl_seconds then
    let _ := env.renew s1.renewCount
    { s1 with renewCount := s1.renewCount + 1 }
  else s1

/-- Result of one iteration of the `while` loop body. -/
inductive StepResult where
  | next (s : LoopState)
  | stopSuccess (s : LoopState)
  | failed (s : LoopState) (errmsg : String)

/-- The check performed after the mid-run drain: honor `finish` only when
the drain left `just_finish` standing, otherwise complete the iteration. -/
def afterDrainStep (env : AgentEnv) (la : LockArgs)
    (p : LoopState × Bool × List SkillLearnDistilled) : StepResult :=
  if p.2.1 then .stopSuccess p.1
  else .next (finishIteration env la p.1)

/-- One iteration of the agent loop body: LM call (an error raises),
assistant message appended, stop when no tool calls were returned, tool
dispatch (errors raise), mid-run drain, then the `just_finish` check. -/
def iterStep (cfg : CoreConfig) (env : AgentEnv) (la : LockArgs)
    (s0 : LoopState) : StepResult :=
  match env.llm s0.lmCalls with
  | .reject e =>
      .failed { s0 with lmCalls := s0.lmCalls + 1 } ("LLM call failed: " ++ e)
  | .resolve resp =>
      let s := { s0 with
        lmCalls := s0.lmCalls + 1,
        messages := s0.messages ++ [response_to_sendable_message resp] }
      if resp.tool_calls = [] then .stopSuccess s
      else
        match processToolCalls env resp.tool_calls false
            s.hasReportedThinking s.dispatchCount [] with
        | .error e => .failed s e
        | .ok (toolMsgs, justFinish, hrt, dIdx) =>
            let s2 := { s with
              messages := s.messages ++ toolMsgs,
              hasReportedThinking := hrt,
              dispatchCount := dIdx }
            afterDrainStep env la (midRunDrain cfg env s2 justFinish)

/-- Outcome of the bounded loop; `outOfFuel` is a model artifact marking
insufficient fuel, distinct from both exits of the source. -/
inductive LoopOutcome where
  | success
  | failure (errmsg : String)
  | outOfFuel
  deriving DecidableEq, Repr

/-- The `while already_iterations < max_iterations` loop, driven by fuel. -/
def runLoop (cfg : CoreConfig) (env : AgentEnv) (la : LockArgs) :
    Nat → LoopState → LoopOutcome × LoopState
  | 0, s => (.outOfFuel, s)
  | fuel + 1, s =>
      if (s.alreadyIterations : Int) < s.maxIterations then
        match iterStep cfg env la s with
        | .next s2 => runLoop cfg env la fuel s2
        | .stopSuccess s2 => (.success, s2)
        | .failed s2 e => (.failure e, s2)
      else (.success, s)

/-- Outcome of a whole `skill_learner_agent` call: `Result.resolve` of the
drained session ids, or `Result.reject` of the exception text, or the
fuel artifact. -/
inductive AgentOutcome where
  | ok (session_ids : List Nat)
  | err (errmsg : String)
  | outOfFuel
  deriving DecidableEq, Repr

/-- Everything observable about one `skill_learner_agent` call: the
returned `Result`, the final pending list (after the failure-path
re-push), the pending list at the moment the loop exited (before any
re-push), the items drained during the run in drain order, and the oracle
counters of the final state. -/
structure AgentResult where
  outcome : AgentOutcome
  pending : List SkillLearnDistilled
  pendingAtExit : List SkillLearnDistilled
  drained : List SkillLearnDistilled
  lmCalls : Nat
  dispatchCount : Nat
  renewCount : Nat
  finalState : LoopState

/-- The state built by the entry code of `skill_learner_agent`: the entry
drain with `max_read = skill_learn_max_contexts_per_agent_run`, the skills
snapshot, and the initial user message (Task Analysis, Available Skills,
then the entry-drained items as pending contexts, or `None` when the entry
drain was empty). -/
def initialLoopState (cfg : CoreConfig) (skills_info : List SkillInfo)
    (distilled_context : String) (max_iterations : Int)
    (queue : List SkillLearnDistilled) : LoopState :=
  let skills := skillsDict skills_info
  let avail := _build_available_skills_str skills
  let entry := drain_skill_learn_pending queue
    (some cfg.skill_learn_max_contexts_per_agent_run)
  let userInput := pack_skill_learner_input distilled_context avail
    (if entry.1 = [] then none else some entry.1)
  { queue := entry.2.1,
    drained := entry.1,
    messages := [{ role := .user, content := userInput }],
    skills := skills,
    availableSkillsStr := avail,
    maxIterations := max_iterations,
    alreadyIterations := 0,
    hasReportedThinking := false,
    lmCalls := 0, dispatchCount := 0, drainPoints := 0,
    refreshCount := 0, renewCount := 0 }

/-- The two exits of `skill_learner_agent` (plus the fuel artifact):
success resolves the session ids of every drained context; the exception
handler re-pushes every drained item, in drained order, onto the pending
list (`push_skill_learn_pending` per item ≡ one append of the whole drained
list) and rejects with the exception text. -/
def agentResultOf (r : LoopOutcome × LoopState) : AgentResult :=
  match r with
  | (.success, s) =>
      { outcome := .ok (s.drained.map (fun it => it.session_id)),
        pending := s.queue, pendingAtExit := s.queue, drained := s.drained,
        lmCalls := s.lmCalls, dispatchCount := s.dispatchCount,
        renewCount := s.renewCount, finalState := s }
  | (.failure e, s) =>
      { outcome := .err e,
        pending := s.queue ++ s.drained, pendingAtExit := s.queue,
        drained := s.drained,
        lmCalls := s.lmCalls, dispatchCount := s.dispatchCount,
        renewCount := s.renewCount, finalState := s }
  | (.outOfFuel, s) =>
      { outcome := .outOfFuel,
        pending := s.queue, pendingAtExit := s.queue, drained := s.drained,
        lmCalls := s.lmCalls, dispatchCount := s.dispatchCount,
        renewCount := s.renewCount, finalState := s }

/-- `skill_learner_agent` (llm/agent/skill_learner.py): entry drain and
initial message, the bounded-but-extensible iteration loop, and the two
exits. -/
def skill_learner_agent (cfg : CoreConfig) (env : AgentEnv)
    (skills_info : List SkillInfo) (distilled_context : String)
    (max_iterations : Int) (la : LockArgs)
    (queue : List SkillLearnDistilled) (fuel : Nat) : AgentResult :=
  agentResultOf (runLoop cfg env la fuel
    (initialLoopState cfg skills_info distilled_context max_iterations queue))

/-! ### The message-bus consumers (`service/skill_learner.py`) -/

/-- The coarse session status written by the orchestrator. -/
inductive SessionStatus where
  | pending
  | queued
  | running
  | completed
  | failed
  deriving DecidableEq, Repr

/-- Observable effects of one delivery to the skill-agent consumer, in
program order: the lock acquisition attempt and its outcome, a push onto
the pending list, a session-status write, the agent run, the lock
release, the single-item retrigger drain, and a bus publish of a
`SkillLearnDistilled` body. -/
inductive CEvent where
  | acquireLock (granted : Bool)
  | pushPending (item : SkillLearnDistilled)
  | setStatus (session_id : Nat) (st : SessionStatus)
  | runAgent
  | releaseLock
  | drainForRetrigger (got : List SkillLearnDistilled)
  | publishAgent (item : SkillLearnDistilled)
  deriving DecidableEq, Repr

/-- The skill-agent consumer's view of `SLC.run_skill_agent`: given the
current pending list it returns the `Result` of the run together with the
pending list it leaves behind. -/
structure ConsumerEnv where
  agentRun : List SkillLearnDistilled →
    Result (List Nat) × List SkillLearnDistilled

/-- Shared KV state seen by one skill-agent delivery: the pending list of
the `(project, learning_space)` key and whether the agent lock key is
currently held (by anyone). -/
structure ConsumerState where
  queue : List SkillLearnDistilled
  lockHeld : Bool
  deriving DecidableEq, Repr

/-- `process_skill_agent` (service/skill_learner.py): acquire the
per-learning-space lock; when denied, park the body on the pending list
and mark the session queued; when gained, run the agent, mark the live
session plus every drained session completed on success or the live
session failed on failure, release the lock in a `finally`, and — only
after a successful run — drain at most one pending item and republish it.
Returns the event trace in program order and the final KV state. -/
def process_skill_agent (env : ConsumerEnv) (body : SkillLearnDistilled)
    (st : ConsumerState) : List CEvent × ConsumerState :=
  if st.lockHeld then
    ([.acquireLock false, .pushPending body,
      .setStatus body.session_id .queued],
     { queue := push_skill_learn_pending st.queue body,
       lockHeld := st.lockHeld })
  else
    match env.agentRun st.queue with
    | (.reject _e, q2) =>
        ([.acquireLock true, .runAgent,
          .setStatus body.session_id .failed, .releaseLock],
         { queue := q2, lockHeld := false })
    | (.resolve sids, q2) =>
        let all := (body.session_id :: sids).dedup
        let d := drain_skill_learn_pending q2 (some 1)
        ([.acquireLock true, .runAgent] ++
          all.map (fun sid => .setStatus sid .completed) ++
          [.releaseLock, .drainForRetrigger d.1] ++
          (match d.1 with
           | [] => []
           | g :: _ => [.publishAgent g]),
         { queue := d.2.1, lockHeld := false })

/-- Observable effects of one delivery to the distillation consumer. -/
inductive DEvent where
  | setStatus (session_id : Nat) (st : SessionStatus)
  | distillInvoke
  | publishDistilled (item : SkillLearnDistilled)
  deriving DecidableEq, Repr

/-- The distillation consumer's external collaborators: the DB lookup
`get_learning_space_for_session` (an error, no learning space, or the
learning-space id) and the distillation pipeline
`SLC.process_context_distillation` (an error, a not-actionable `None`, or
a distilled payload). -/
structure DistillEnv where
  lsForSession : Result (Option Nat)
  distillation : Result (Option SkillLearnDistilled)

/-- `process_skill_distillation` (service/skill_learner.py): resolve the
learning space of the session — on error or no attachment, log and return
with no further work; otherwise mark the session running, invoke the
distillation pipeline, and either mark the session failed (pipeline
error), return silently (`None` payload), or publish the distilled
context to the agent routing key.  Returns the event trace; the function
never touches the pending list or any lock. -/
def process_skill_distillation (env : DistillEnv) (body : SkillLearnTask) :
    List DEvent :=
  match env.lsForSession with
  | .reject _e => []
  | .resolve none => []
  | .resolve (some _ls) =>
      [.setStatus body.session_id .running, .distillInvoke] ++
      (match env.distillation with
       | .reject _e2 => [.setStatus body.session_id .failed]
       | .resolve none => []
       | .resolve (some payload) => [.publishDistilled payload])

/-- Modelled from the spec: `SLC.run_skill_agent`
(service/controller/skill_learner, not under src/) is the glue that calls
`skill_learner_agent` and hands its `Result` to the consumer; the fuel
artifact is folded into the error channel, which a sufficiently fueled
run never takes. -/
def agentOutcomeToResult : AgentOutcome → Result (List Nat)
  | .ok sids => .resolve sids
  | .err e => .reject e
  | .outOfFuel => .reject "out of fuel"

/-- Modelled from the spec: the consumer environment whose `agentRun` is
the embedded `skill_learner_agent` with fixed configuration, oracles and
arguments, acting on the shared pending list. -/
def consumerEnvOfAgent (cfg : CoreConfig) (env : AgentEnv)
    (skills_info : List SkillInfo) (distilled_context : String)
    (max_iterations : Int) (la : LockArgs) (fuel : Nat) : ConsumerEnv :=
  { agentRun := fun q =>
      ((agentOutcomeToResult (skill_learner_agent cfg env skills_info
          distilled_context max_iterations la q fuel).outcome),
        (skill_learner_agent cfg env skills_info distilled_context
          max_iterations la q fuel).pending) }

/-! ### Concrete scenarios used by witnesses and counterexamples -/

/-- Sample pending-queue items used by concrete witnesses. -/
def itemA : SkillLearnDistilled := ⟨1, 11, 21, 31, "ctx-a"⟩

def itemB : SkillLearnDistilled := ⟨1, 12, 22, 31, "ctx-b"⟩

def itemC : SkillLearnDistilled := ⟨1, 13, 23, 31, "ctx-c"⟩

/-- A pending item carrying the same session id (7) as the live body of
the C5 scenario: it was parked on the queue by an earlier delivery of the
same session. -/
def item7 : SkillLearnDistilled := ⟨1, 7, 21, 31, "parked-from-live-session"⟩

/-- The live delivery body of the C5 scenario, session id 7. -/
def bodyLive : SkillLearnDistilled := ⟨1, 7, 99, 31, "live"⟩

/-- Configuration used by concrete scenarios: 3 extra iterations per
context batch, at most 5 contexts per run, 5 initial iterations, 240 s
lock TTL. -/
def cfgW : CoreConfig := ⟨3, 5, 5, 240⟩

/-- Lock state and agent-run oracle used by the C7 witness: the run
resolves one session id and leaves one item behind for the retrigger. -/
def cenvW : ConsumerEnv := ⟨fun _q => (.resolve [5], [itemB])⟩

/-- A lock handle as the consumer passes it. -/
def laW : LockArgs := ⟨some "skill_learn.31", some 240⟩

/-- No lock handle (direct invocation without a consumer). -/
def laNone : LockArgs := ⟨none, none⟩

/-- Scenario oracles: the LM immediately answers without tool calls. -/
def envStop : AgentEnv :=
  { llm := fun _ => .resolve ⟨some "done", []⟩,
    toolRun := fun _ => .ok "ok" false,
    registry := ["report_thinking"],
    arrivals := fun _ => [],
    refreshedSkills := fun _ => [],
    renew := fun _ => true }

/-- Scenario oracles: the LM call errs out at once. -/
def envFail : AgentEnv := { envStop with llm := fun _ => .reject "boom" }

/-- Scenario oracles: one tool-call iteration, then a plain answer. -/
def envOneTool : AgentEnv :=
  { envStop with
    llm := fun n =>
      if n = 0 then
        .resolve ⟨some "thinking", [⟨"c1", ⟨"report_thinking", "args"⟩⟩]⟩
      else .resolve ⟨some "done", []⟩ }

/-- Scenario oracles: one concurrent arrival at the first drain point. -/
def envMid : AgentEnv := { envStop with arrivals := fun _ => [itemA] }

/-- A loop state in the middle of a run, used by the C3 witness. -/
def sW : LoopState :=
  { queue := [], drained := [], messages := [], skills := [],
    availableSkillsStr := "", maxIterations := 2, alreadyIterations := 0,
    hasReportedThinking := false, lmCalls := 1, dispatchCount := 1,
    drainPoints := 0, refreshCount := 0, renewCount := 0 }

/-! ### Basic facts about the Redis list primitives -/

theorem redisIdx_of_nonneg (len : Nat) (i : Int) (h : 0 ≤ i) :
    redisIdx len i = i := by
  simp [redisIdx, not_lt.mpr h]

theorem redisIdx_neg_one (len : Nat) : redisIdx len (-1) = (len : Int) - 1 := by
  simp [redisIdx]
  omega

theorem lrange_full {α : Type} (l : List α) : lrange l 0 (-1) = l := by
  rw [lrange, redisIdx_of_nonneg _ _ le_rfl, redisIdx_neg_one]
  rcases Nat.eq_zero_or_pos l.length with hz | hp
  · rw [if_pos (by omega)]
    exact (List.eq_nil_of_length_eq_zero hz).symm
  · rw [if_neg (by omega)]
    have h1 : (max (0 : Int) 0).toNat = 0 := by omega
    have h2 : (min ((l.length : Int) - 1) ((l.length : Int) - 1) + 1 -
        max 0 0).toNat = l.length := by omega
    rw [h1, h2, List.drop_zero, List.take_length]

theorem lrange_take {α : Type} (l : List α) (m : Int) (hm : 0 < m) :
    lrange l 0 (m - 1) = l.take m.toNat := by
  rw [lrange, redisIdx_of_nonneg _ _ le_rfl, redisIdx_of_nonneg _ _ (by omega)]
  rcases Nat.eq_zero_or_pos l.length with hz | hp
  · rw [if_pos (by omega)]
    rw [List.eq_nil_of_length_eq_zero hz]
    simp
  · rw [if_neg (by omega)]
    have h1 : (max (0 : Int) 0).toNat = 0 := by omega
    rw [h1, List.drop_zero]
    rcases le_or_lt m (l.length : Int) with hle | hlt
    · have h2 : (min (m - 1) ((l.length : Int) - 1) + 1 - max 0 0).toNat =
          m.toNat := by omega
      rw [h2]
    · have h2 : (min (m - 1) ((l.length : Int) - 1) + 1 - max 0 0).toNat =
          l.length := by omega
      have h3 : l.length ≤ m.toNat := by omega
      rw [h2, List.take_length, List.take_of_length_le h3]

theorem lrange_drop {α : Type} (l : List α) (m : Int) (hm : 0 < m) :
    lrange l m (-1) = l.drop m.toNat := by
  rw [lrange, redisIdx_of_nonneg _ _ (by omega), redisIdx_neg_one]
  rcases le_or_lt (l.length : Int) m with hle | hlt
  · rw [if_pos (by omega)]
    have h2 : l.length ≤ m.toNat := by omega
    exact (List.drop_eq_nil_of_le h2).symm
  · rw [if_neg (by omega)]
    have h1 : (max m 0).toNat = m.toNat := by omega
    have h2 : (min ((l.length : Int) - 1) ((l.length : Int) - 1) + 1 -
        max m 0).toNat = (l.drop m.toNat).length := by
      rw [List.length_drop]; omega
    rw [h1, h2, List.take_length]

/-- Claim C4 — `drain_skill_learn_pending(P, L, max_read)`: a non-positive
`max_read` returns the empty list and issues no KV command; an absent
`max_read` reads the whole list and deletes the key in one transaction;
a positive `max_read` returns the first `min(max_read, length)` items and
removes exactly that prefix, leaving the remainder in FIFO order, the read
and the removal being one atomic step of the model. -/
theorem claim_C4_drain_pending (q : List SkillLearnDistilled) (mr : Option Int) :
    (∀ m, mr = some m → m ≤ 0 →
      drain_skill_learn_pending q mr = ([], q, 0)) ∧
    (mr = none →
      drain_skill_learn_pending q mr = (q, [], 2)) ∧
    (∀ m, mr = some m → 0 < m →
      drain_skill_learn_pending q mr = (q.take m.toNat, q.drop m.toNat, 2) ∧
      (q.take m.toNat).length = min m.toNat q.length ∧
      q.take m.toNat ++ q.drop m.toNat = q) := by
  refine ⟨?_, ?_, ?_⟩
  · intro m hm hle
    subst hm
    simp [drain_skill_learn_pending, hle]
  · intro hm
    subst hm
    simp [drain_skill_learn_pending, lrange_full]
  · intro m hm hpos
    subst hm
    refine ⟨?_, ?_, ?_⟩
    · simp only [drain_skill_learn_pending, if_neg (show ¬ (m ≤ 0) by omega)]
      rw [ltrim, lrange_take q m hpos, lrange_drop q m hpos]
    · simp [List.length_take]
    · exact List.take_append_drop m.toNat q

/-- Claim C4, witness: draining three pending items with `max_read = 2`
returns the first two and leaves the third, in two KV commands. -/
theorem claim_C4_witness :
    drain_skill_learn_pending [itemA, itemB, itemC] (some 2) =
      ([itemA, itemB], [itemC], 2) := by
  have h := (claim_C4_drain_pending [itemA, itemB, itemC] (some 2)).2.2 2 rfl (by omega)
  rw [h.1]
  rfl

/-! ### Mutual exclusion of the agent lock -/

theorem lockRun_held_no_true (q : Nat) (es : List LockEvent)
    (h : ∀ e ∈ es, e ≠ LockEvent.release ∧ e ≠ LockEvent.expire) :
    (lockRun (some q) es).count true = 0 := by
  induction es with
  | nil => rfl
  | cons e es ih =>
      cases e with
      | acquire p =>
          have := ih (fun e he => h e (List.mem_cons_of_mem _ he))
          simpa [lockRun, lockStep, check_redis_lock_or_set, List.count_cons]
            using this
      | release => exact absurd rfl (h _ (List.mem_cons_self _ _)).1
      | expire => exact absurd rfl (h _ (List.mem_cons_self _ _)).2

/-- Claim C2 — per-key mutual exclusion of
`Lock(P, "skill_learn.{L}")`: across any interleaving of atomic
`check_redis_lock_or_set` calls (Redis `SET NX EX`) on one lock key in
which the key is neither released nor TTL-expired, at most one call
returns `true`; hence two concurrent skill-agent consumers can never both
be told they acquired the same `(project, learning_space)` lock while the
first holder still holds it. -/
theorem claim_C2_lock_mutual_exclusion (lock : Option Nat) (es : List LockEvent)
    (h : ∀ e ∈ es, e ≠ LockEvent.release ∧ e ≠ LockEvent.expire) :
    (lockRun lock es).count true ≤ 1 := by
  induction es generalizing lock with
  | nil => simp [lockRun]
  | cons e es ih =>
      cases e with
      | acquire p =>
          have hes : ∀ e ∈ es, e ≠ LockEvent.release ∧ e ≠ LockEvent.expire :=
            fun e he => h e (List.mem_cons_of_mem _ he)
          cases lock with
          | none =>
              have h0 := lockRun_held_no_true p es hes
              simp [lockRun, lockStep, check_redis_lock_or_set, List.count_cons, h0]
          | some q =>
              have := ih (some q) hes
              simpa [lockRun, lockStep, check_redis_lock_or_set, List.count_cons]
                using this
      | release => exact absurd rfl (h _ (List.mem_cons_self _ _)).1
      | expire => exact absurd rfl (h _ (List.mem_cons_self _ _)).2

/-- Claim C2, witness: two processes racing to acquire a free lock — only
one `check_redis_lock_or_set` call returns `true`. -/
theorem claim_C2_witness :
    (∀ e ∈ [LockEvent.acquire 1, LockEvent.acquire 2],
      e ≠ LockEvent.release ∧ e ≠ LockEvent.expire) ∧
    (lockRun none [LockEvent.acquire 1, LockEvent.acquire 2]).count true ≤ 1 :=
  ⟨by decide, claim_C2_lock_mutual_exclusion none _ (by decide)⟩

/-! ### Supporting lemmas about the agent loop -/

theorem agentResultOf_finalState (r : LoopOutcome × LoopState) :
    (agentResultOf r).finalState = r.2 := by
  rcases r with ⟨o, s⟩
  cases o <;> rfl

theorem agentResultOf_renewCount (r : LoopOutcome × LoopState) :
    (agentResultOf r).renewCount = r.2.renewCount := by
  rcases r with ⟨o, s⟩
  cases o <;> rfl

theorem agentResultOf_drained (r : LoopOutcome × LoopState) :
    (agentResultOf r).drained = r.2.drained := by
  rcases r with ⟨o, s⟩
  cases o <;> rfl

theorem agentResultOf_pendingAtExit (r : LoopOutcome × LoopState) :
    (agentResultOf r).pendingAtExit = r.2.queue := by
  rcases r with ⟨o, s⟩
  cases o <;> rfl

theorem agentResultOf_err_iff (r : LoopOutcome × LoopState) (e : String) :
    (agentResultOf r).outcome = .err e ↔ r.1 = .failure e := by
  rcases r with ⟨o, s⟩
  cases o <;> simp [agentResultOf]

theorem agentResultOf_ok_iff (r : LoopOutcome × LoopState) (sids : List Nat) :
    (agentResultOf r).outcome = .ok sids ↔
      r.1 = .success ∧ sids = r.2.drained.map (fun it => it.session_id) := by
  rcases r with ⟨o, s⟩
  cases o <;> simp [agentResultOf, eq_comm]

theorem agentResultOf_pending_failure (r : LoopOutcome × LoopState)
    (e : String) (h : r.1 = .failure e) :
    (agentResultOf r).pending = r.2.queue ++ r.2.drained := by
  rcases r with ⟨o, s⟩
  cases o <;> simp_all [agentResultOf]

theorem midRunDrain_fields (cfg : CoreConfig) (env : AgentEnv)
    (s : LoopState) (jf : Bool) :
    (midRunDrain cfg env s jf).1.drained =
      s.drained ++ (midRunDrain cfg env s jf).2.2 ∧
    (midRunDrain cfg env s jf).1.alreadyIterations = s.alreadyIterations ∧
    (midRunDrain cfg env s jf).1.renewCount = s.renewCount ∧
    (midRunDrain cfg env s jf).1.lmCalls = s.lmCalls ∧
    (midRunDrain cfg env s jf).1.dispatchCount = s.dispatchCount := by
  unfold midRunDrain
  dsimp only
  split_ifs <;> simp

theorem finishIteration_fields (env : AgentEnv) (la : LockArgs)
    (s : LoopState) :
    (finishIteration env la s).drained = s.drained ∧
    (finishIteration env la s).alreadyIterations = s.alreadyIterations + 1 ∧
    (finishIteration env la s).renewCount =
      (if pyTruthyStr la.lock_key && pyTruthyInt la.lock_ttl_seconds then
        s.renewCount + 1 else s.renewCount) := by
  unfold finishIteration
  split_ifs <;> simp

theorem afterDrain_fields (cfg : CoreConfig) (env : AgentEnv) (la : LockArgs)
    (s2 : LoopState) (jf : Bool) :
    match afterDrainStep env la (midRunDrain cfg env s2 jf) with
    | .next s3 =>
        (∃ t, s3.drained = s2.drained ++ t) ∧
        s3.alreadyIterations = s2.alreadyIterations + 1 ∧
        s3.renewCount =
          (if pyTruthyStr la.lock_key && pyTruthyInt la.lock_ttl_seconds then
            s2.renewCount + 1 else s2.renewCount)
    | .stopSuccess s3 =>
        (∃ t, s3.drained = s2.drained ++ t) ∧
        s3.alreadyIterations = s2.alreadyIterations ∧
        s3.renewCount = s2.renewCount
    | .failed s3 _ =>
        (∃ t, s3.drained = s2.drained ++ t) ∧
        s3.alreadyIterations = s2.alreadyIterations ∧
        s3.renewCount = s2.renewCount := by
  have hmd := midRunDrain_fields cfg env s2 jf
  have hfi := finishIteration_fields env la (midRunDrain cfg env s2 jf).1
  unfold afterDrainStep
  by_cases hjf : (midRunDrain cfg env s2 jf).2.1 = true
  · rw [if_pos hjf]
    dsimp only
    exact ⟨⟨_, hmd.1⟩, hmd.2.1, hmd.2.2.1⟩
  · rw [if_neg hjf]
    dsimp only
    refine ⟨⟨_, by rw [hfi.1, hmd.1]⟩, by rw [hfi.2.1, hmd.2.1], ?_⟩
    rw [hfi.2.2, hmd.2.2.1]

theorem iterStep_fields (cfg : CoreConfig) (env : AgentEnv) (la : LockArgs)
    (s : LoopState) :
    match iterStep cfg env la s with
    | .next s2 =>
        (∃ t, s2.drained = s.drained ++ t) ∧
        s2.alreadyIterations = s.alreadyIterations + 1 ∧
        s2.renewCount =
          (if pyTruthyStr la.lock_key && pyTruthyInt la.lock_ttl_seconds then
            s.renewCount + 1 else s.renewCount)
    | .stopSuccess s2 =>
        (∃ t, s2.drained = s.drained ++ t) ∧
        s2.alreadyIterations = s.alreadyIterations ∧
        s2.renewCount = s.renewCount
    | .failed s2 _ =>
        (∃ t, s2.drained = s.drained ++ t) ∧
        s2.alreadyIterations = s.alreadyIterations ∧
        s2.renewCount = s.renewCount := by
  unfold iterStep
  cases henv : env.llm s.lmCalls with
  | reject e =>
      dsimp only
      exact ⟨⟨[], by simp⟩, rfl, rfl⟩
  | resolve resp =>
      dsimp only
      by_cases ht : resp.tool_calls = []
      · rw [if_pos ht]
        exact ⟨⟨[], by simp⟩, rfl, rfl⟩
      · rw [if_neg ht]
        cases hp : processToolCalls env resp.tool_calls false
            s.hasReportedThinking s.dispatchCount [] with
        | error e =>
            dsimp only
            exact ⟨⟨[], by simp⟩, rfl, rfl⟩
        | ok res =>
            obtain ⟨toolMsgs, justFinish, hrt, dIdx⟩ := res
            dsimp only
            exact afterDrain_fields cfg env la _ justFinish

theorem runLoop_drained (cfg : CoreConfig) (env : AgentEnv) (la : LockArgs)
    (fuel : Nat) (s : LoopState) :
    ∃ t, (runLoop cfg env la fuel s).2.drained = s.drained ++ t := by
  induction fuel generalizing s with
  | zero => exact ⟨[], by simp [runLoop]⟩
  | succ n ih =>
      unfold runLoop
      split_ifs with h
      · have hi := iterStep_fields cfg env la s
        cases hstep : iterStep cfg env la s with
        | next s2 =>
            rw [hstep] at hi
            obtain ⟨t1, ht1⟩ := hi.1
            obtain ⟨t2, ht2⟩ := ih s2
            exact ⟨t1 ++ t2, by rw [ht2, ht1, List.append_assoc]⟩
        | stopSuccess s2 =>
            rw [hstep] at hi
            exact hi.1
        | failed s2 e =>
            rw [hstep] at hi
            exact hi.1
      · exact ⟨[], by simp⟩

theorem runLoop_renew (cfg : CoreConfig) (env : AgentEnv) (la : LockArgs)
    (hT : (pyTruthyStr la.lock_key && pyTruthyInt la.lock_ttl_seconds) = true)
    (fuel : Nat) (s : LoopState) :
    (runLoop cfg env la fuel s).2.renewCount + s.alreadyIterations =
      s.renewCount + (runLoop cfg env la fuel s).2.alreadyIterations := by
  induction fuel generalizing s with
  | zero => simp [runLoop]
  | succ n ih =>
      unfold runLoop
      split_ifs with h
      · have hi := iterStep_fields cfg env la s
        cases hstep : iterStep cfg env la s with
        | next s2 =>
            rw [hstep] at hi
            dsimp only
            have h2 := hi.2.1
            have h3 := hi.2.2
            rw [hT] at h3
            simp only [if_pos] at h3
            have h4 := ih s2
            omega
        | stopSuccess s2 =>
            rw [hstep] at hi
            dsimp only
            omega
        | failed s2 e =>
            rw [hstep] at hi
            dsimp only
            omega
      · simp

theorem processToolCalls_renew_irrel (env : AgentEnv) (r2 : Nat → Bool)
    (calls : List LLMToolCall) (jf hrt : Bool) (d : Nat)
    (acc : List Message) :
    processToolCalls { env with renew := r2 } calls jf hrt d acc =
      processToolCalls env calls jf hrt d acc := by
  induction calls generalizing jf hrt d acc with
  | nil => rfl
  | cons tc rest ih =>
      unfold processToolCalls
      dsimp only
      split_ifs with h1 h2
      · exact ih true hrt d acc
      · cases env.toolRun d with
        | ok t sets => exact ih jf (hrt || sets) (d + 1) _
        | rejected e => rfl
        | raised e => rfl
      · rfl

theorem midRunDrain_renew_irrel (cfg : CoreConfig) (env : AgentEnv)
    (r2 : Nat → Bool) (s : LoopState) (jf : Bool) :
    midRunDrain cfg { env with renew := r2 } s jf = midRunDrain cfg env s jf :=
  rfl

theorem afterDrainStep_renew_irrel (env : AgentEnv) (r2 : Nat → Bool)
    (la : LockArgs) (p : LoopState × Bool × List SkillLearnDistilled) :
    afterDrainStep { env with renew := r2 } la p = afterDrainStep env la p := by
  unfold afterDrainStep finishIteration
  split_ifs <;> rfl

theorem iterStep_renew_irrel (cfg : CoreConfig) (env : AgentEnv)
    (r2 : Nat → Bool) (la : LockArgs) (s : LoopState) :
    iterStep cfg { env with renew := r2 } la s = iterStep cfg env la s := by
  unfold iterStep
  dsimp only
  simp only [processToolCalls_renew_irrel, midRunDrain_renew_irrel,
    afterDrainStep_renew_irrel]

theorem runLoop_renew_irrel (cfg : CoreConfig) (env : AgentEnv)
    (r2 : Nat → Bool) (la : LockArgs) (fuel : Nat) (s : LoopState) :
    runLoop cfg { env with renew := r2 } la fuel s =
      runLoop cfg env la fuel s := by
  induction fuel generalizing s with
  | zero => rfl
  | succ n ih =>
      unfold runLoop
      rw [iterStep_renew_irrel]
      split_ifs with h
      · cases iterStep cfg env la s with
        | next s2 => exact ih s2
        | stopSuccess s2 => rfl
        | failed s2 e => rfl
      · rfl

theorem initialLoopState_drained (cfg : CoreConfig)
    (skills_info : List SkillInfo) (dc : String) (mi : Int)
    (queue : List SkillLearnDistilled) :
    (initialLoopState cfg skills_info dc mi queue).drained =
      (drain_skill_learn_pending queue
        (some cfg.skill_learn_max_contexts_per_agent_run)).1 :=
  rfl

/-! ### Supporting lemmas about the consumers -/

theorem process_skill_agent_completed_mem (env : ConsumerEnv)
    (body : SkillLearnDistilled) (st : ConsumerState)
    (sids : List Nat) (q2 : List SkillLearnDistilled)
    (hlock : st.lockHeld = false)
    (hrun : env.agentRun st.queue = (.resolve sids, q2)) :
    ∀ x, CEvent.setStatus x .completed ∈ (process_skill_agent env body st).1 ↔
      (x = body.session_id ∨ x ∈ sids) := by
  intro x
  unfold process_skill_agent
  rw [hlock, hrun]
  dsimp only
  rcases hq : (drain_skill_learn_pending q2 (some 1)).1 with _ | ⟨g, t⟩ <;>
    simp [List.mem_dedup]

theorem mem_left_of_eq_append_cons {α : Type} {A B pre post : List α}
    {y x : α} (hy : y ∉ A) (hx : x ∈ A) (h : A ++ B = pre ++ y :: post) :
    x ∈ pre := by
  induction A generalizing pre with
  | nil => cases hx
  | cons a A2 ih =>
      cases pre with
      | nil =>
          rw [List.nil_append] at h
          rw [List.cons_append] at h
          have hay : a = y := (List.cons.injEq _ _ _ _ ▸ h).1
          exact absurd (hay ▸ List.mem_cons_self a A2) hy
      | cons p pre2 =>
          rw [List.cons_append, List.cons_append] at h
          have h1 : a = p ∧ A2 ++ B = pre2 ++ y :: post :=
            List.cons.injEq _ _ _ _ ▸ h
          rcases List.mem_cons.mp hx with hxa | hxA2
          · exact hxa ▸ h1.1 ▸ List.mem_cons_self _ _
          · exact List.mem_cons_of_mem _
              (ih (fun hm => hy (List.mem_cons_of_mem _ hm)) hxA2 h1.2)

/-- Claim C6 — denied lock acquisition: the consumer appends the body to
the pending queue, sets the live session's status to queued, and returns
without running the agent loop, without releasing the (foreign) lock and
without publishing any retrigger. -/
theorem claim_C6_lock_denied (env : ConsumerEnv) (body : SkillLearnDistilled)
    (st : ConsumerState) (h : st.lockHeld = true) :
    (process_skill_agent env body st).1 =
      [.acquireLock false, .pushPending body,
       .setStatus body.session_id .queued] ∧
    (process_skill_agent env body st).2.queue =
      push_skill_learn_pending st.queue body ∧
    (process_skill_agent env body st).2.lockHeld = true ∧
    CEvent.runAgent ∉ (process_skill_agent env body st).1 ∧
    CEvent.releaseLock ∉ (process_skill_agent env body st).1 ∧
    ∀ it, CEvent.publishAgent it ∉ (process_skill_agent env body st).1 := by
  unfold process_skill_agent
  rw [h]
  simp

/-- Claim C6, witness: a delivery arriving while the lock is held parks
the body and marks the session queued. -/
theorem claim_C6_witness :
    (process_skill_agent ⟨fun q => (.resolve [], q)⟩ itemB
      ⟨[itemA], true⟩).1 =
      [.acquireLock false, .pushPending itemB,
       .setStatus itemB.session_id .queued] ∧
    (process_skill_agent ⟨fun q => (.resolve [], q)⟩ itemB
      ⟨[itemA], true⟩).2.queue =
      push_skill_learn_pending [itemA] itemB :=
  ⟨(claim_C6_lock_denied ⟨fun q => (.resolve [], q)⟩ itemB
      ⟨[itemA], true⟩ rfl).1,
   (claim_C6_lock_denied ⟨fun q => (.resolve [], q)⟩ itemB
      ⟨[itemA], true⟩ rfl).2.1⟩

/-- Claim C8 — a distillation task whose session resolves to no learning
space (or whose lookup errs): the consumer returns with an empty effect
trace — no status write, no pipeline invocation, no publish; it never
touches the pending queue or any lock (the distillation handler has no
access to either in the model, mirroring the source). -/
theorem claim_C8_no_learning_space (env : DistillEnv) (body : SkillLearnTask)
    (h : env.lsForSession = .resolve none ∨
      ∃ e, env.lsForSession = .reject e) :
    process_skill_distillation env body = [] := by
  unfold process_skill_distillation
  rcases h with h | ⟨e, h⟩ <;> rw [h]

/-- Claim C8, witness: a task for a session with no learning space
produces no observable effect. -/
theorem claim_C8_witness :
    process_skill_distillation ⟨.resolve none, .resolve none⟩ ⟨1, 2, 3⟩ = [] :=
  claim_C8_no_learning_space ⟨.resolve none, .resolve none⟩ ⟨1, 2, 3⟩
    (Or.inl rfl)

/-- Claim C7 — in every delivery to the skill-agent consumer: every
retrigger publish is strictly preceded by the lock release in the event
trace; a publish can only occur on a delivery that acquired the lock and
whose agent run resolved (never after a failed run and never on the
denied path); the retrigger drain takes at most one item; and when it
returns an item, exactly that item is published.  Whenever the agent ran,
the lock release occurs on that path. -/
theorem claim_C7_release_before_retrigger (env : ConsumerEnv)
    (body : SkillLearnDistilled) (st : ConsumerState) :
    (∀ pre it post,
      (process_skill_agent env body st).1 =
        pre ++ CEvent.publishAgent it :: post →
      CEvent.releaseLock ∈ pre) ∧
    (∀ it, CEvent.publishAgent it ∈ (process_skill_agent env body st).1 →
      st.lockHeld = false ∧
      ∃ sids q2, env.agentRun st.queue = (.resolve sids, q2)) ∧
    (∀ got,
      CEvent.drainForRetrigger got ∈ (process_skill_agent env body st).1 →
      got.length ≤ 1 ∧ ∀ g, got = [g] →
        CEvent.publishAgent g ∈ (process_skill_agent env body st).1) ∧
    (CEvent.runAgent ∈ (process_skill_agent env body st).1 →
      CEvent.releaseLock ∈ (process_skill_agent env body st).1) := by
  by_cases hlk : st.lockHeld = true
  · have htr : (process_skill_agent env body st).1 =
        [.acquireLock false, .pushPending body,
         .setStatus body.session_id .queued] := by
      unfold process_skill_agent
      rw [hlk]
      rfl
    refine ⟨?_, ?_, ?_, ?_⟩
    · intro pre it post heq
      have hm : CEvent.publishAgent it ∈ pre ++ CEvent.publishAgent it :: post :=
        List.mem_append_right _ (List.mem_cons_self _ _)
      rw [← heq, htr] at hm
      simp at hm
    · intro it hm
      rw [htr] at hm
      simp at hm
    · intro got hm
      rw [htr] at hm
      simp at hm
    · intro hm
      rw [htr] at hm
      simp at hm
  · have hlk2 : st.lockHeld = false := by
      revert hlk
      cases st.lockHeld <;> simp
    rcases hrun : env.agentRun st.queue with ⟨r, q2⟩
    cases r with
    | reject e =>
        have htr : (process_skill_agent env body st).1 =
            [.acquireLock true, .runAgent,
             .setStatus body.session_id .failed, .releaseLock] := by
          unfold process_skill_agent
          rw [hlk2, hrun]
          rfl
        refine ⟨?_, ?_, ?_, ?_⟩
        · intro pre it post heq
          have hm : CEvent.publishAgent it ∈
              pre ++ CEvent.publishAgent it :: post :=
            List.mem_append_right _ (List.mem_cons_self _ _)
          rw [← heq, htr] at hm
          simp at hm
        · intro it hm
          rw [htr] at hm
          simp at hm
        · intro got hm
          rw [htr] at hm
          simp at hm
        · intro _hm
          rw [htr]
          simp
    | resolve sids =>
        have hd1 : (drain_skill_learn_pending q2 (some 1)).1 = q2.take 1 := by
          unfold drain_skill_learn_pending
          dsimp only
          rw [if_neg (by omega : ¬ ((1 : Int) ≤ 0))]
          exact lrange_take q2 1 (by omega)
        rcases htk : q2.take 1 with _ | ⟨g, t⟩
        · have htr : (process_skill_agent env body st).1 =
              ([.acquireLock true, .runAgent] ++
                ((body.session_id :: sids).dedup).map
                  (fun sid => CEvent.setStatus sid .completed) ++
                [.releaseLock, .drainForRetrigger []]) ++ [] := by
            unfold process_skill_agent
            rw [hlk2, hrun]
            dsimp only
            rw [hd1, htk]
            simp [List.append_assoc]
          refine ⟨?_, ?_, ?_, ?_⟩
          · intro pre it post heq
            rw [htr] at heq
            exact mem_left_of_eq_append_cons (by simp) (by simp) heq
          · intro it hm
            rw [htr] at hm
            simp at hm
          · intro got hm
            rw [htr] at hm
            simp at hm
            subst hm
            exact ⟨by simp, fun g hg => by simp at hg⟩
          · intro _hm
            rw [htr]
            simp
        · have ht0 : t = [] := by
            have hlen : (q2.take 1).length = t.length + 1 := by
              rw [htk]
              simp
            rw [List.length_take] at hlen
            have h0 : t.length = 0 := by omega
            exact List.eq_nil_of_length_eq_zero h0
          subst ht0
          have htr : (process_skill_agent env body st).1 =
              ([.acquireLock true, .runAgent] ++
                ((body.session_id :: sids).dedup).map
                  (fun sid => CEvent.setStatus sid .completed) ++
                [.releaseLock, .drainForRetrigger [g]]) ++
                [.publishAgent g] := by
            unfold process_skill_agent
            rw [hlk2, hrun]
            dsimp only
            rw [hd1, htk]
            simp [List.append_assoc]
          refine ⟨?_, ?_, ?_, ?_⟩
          · intro pre it post heq
            rw [htr] at heq
            exact mem_left_of_eq_append_cons (by simp) (by simp) heq
          · intro it _hm
            exact ⟨hlk2, sids, q2, rfl⟩
          · intro got hm
            rw [htr] at hm
            simp at hm
            subst hm
            refine ⟨by simp, fun g2 hg => ?_⟩
            have : g2 = g := by
              have := (List.cons.injEq _ _ _ _ ▸ hg).1
              exact this.symm
            subst this
            rw [htr]
            simp
          · intro _hm
            rw [htr]
            simp

/-- Claim C7, witness: on a successful run that leaves a pending item, the
lock release appears in the trace and the retrigger drain took one item. -/
theorem claim_C7_witness :
    CEvent.releaseLock ∈ (process_skill_agent cenvW itemC
      ⟨[itemA], false⟩).1 ∧
    ([itemB] : List SkillLearnDistilled).length ≤ 1 := by
  have h := claim_C7_release_before_retrigger cenvW itemC ⟨[itemA], false⟩
  exact ⟨h.2.2.2 (by decide), (h.2.2.1 [itemB] (by decide)).1⟩

/-- Claim C1 — on any run of `skill_learner_agent` in which an exception
arises inside the iteration loop (LM call error, tool handler error or
unknown tool name), the function re-pushes every context drained during
that run back onto the pending queue, appended after the queue content at
the moment of failure in the original drained order (the entry-drained
batch is a prefix of the re-pushed list), and returns a rejection carrying
the error text; the pending queue then contains the drained multiset, and
the only items appended on this path are the drained ones — the live-input
distilled context is a plain string that is never pushed. -/
theorem claim_C1_failure_repush (cfg : CoreConfig) (env : AgentEnv)
    (skills_info : List SkillInfo) (dc : String) (mi : Int) (la : LockArgs)
    (queue : List SkillLearnDistilled) (fuel : Nat) (e : String)
    (h : (skill_learner_agent cfg env skills_info dc mi la queue fuel).outcome
      = .err e) :
    (skill_learner_agent cfg env skills_info dc mi la queue fuel).pending =
      (skill_learner_agent cfg env skills_info dc mi la queue
        fuel).pendingAtExit ++
      (skill_learner_agent cfg env skills_info dc mi la queue fuel).drained ∧
    (∃ t, (skill_learner_agent cfg env skills_info dc mi la queue
        fuel).drained =
      (drain_skill_learn_pending queue
        (some cfg.skill_learn_max_contexts_per_agent_run)).1 ++ t) ∧
    (∀ x, ((skill_learner_agent cfg env skills_info dc mi la queue
        fuel).drained).count x ≤
      ((skill_learner_agent cfg env skills_info dc mi la queue
        fuel).pending).count x) := by
  unfold skill_learner_agent at h ⊢
  have hfail := (agentResultOf_err_iff _ e).mp h
  have hpend := agentResultOf_pending_failure _ e hfail
  refine ⟨?_, ?_, ?_⟩
  · rw [hpend, agentResultOf_pendingAtExit, agentResultOf_drained]
  · obtain ⟨t, ht⟩ := runLoop_drained cfg env la fuel
      (initialLoopState cfg skills_info dc mi queue)
    rw [agentResultOf_drained]
    exact ⟨t, by rw [ht, initialLoopState_drained]⟩
  · intro x
    rw [hpend, agentResultOf_drained, List.count_append]
    omega

/-- Claim C1, witness: an LM error on the first call fails the run after
the entry drain picked up one item; the item is re-pushed. -/
theorem claim_C1_witness :
    (skill_learner_agent cfgW envFail [] "ctx" 5 laW [itemA] 3).pending =
      (skill_learner_agent cfgW envFail [] "ctx" 5 laW [itemA]
        3).pendingAtExit ++
      (skill_learner_agent cfgW envFail [] "ctx" 5 laW [itemA] 3).drained ∧
    (∃ t, (skill_learner_agent cfgW envFail [] "ctx" 5 laW [itemA]
        3).drained =
      (drain_skill_learn_pending [itemA]
        (some cfgW.skill_learn_max_contexts_per_agent_run)).1 ++ t) ∧
    (∀ x, ((skill_learner_agent cfgW envFail [] "ctx" 5 laW [itemA]
        3).drained).count x ≤
      ((skill_learner_agent cfgW envFail [] "ctx" 5 laW [itemA]
        3).pending).count x) :=
  claim_C1_failure_repush cfgW envFail [] "ctx" 5 laW [itemA] 3
    ("LLM call failed: " ++ "boom") rfl

/-- Claim C9 — in every run called with a lock handle (`lock_key` and
`lock_ttl_seconds` both truthy), the lock is renewed exactly once per
completed iteration (the renewal count of the final state equals its
iteration counter, and both are incremented together at the end of each
iteration, after the counter); and the entire run result is independent
of the booleans `renew_redis_lock` returns — a failed renewal never
aborts the run. -/
theorem claim_C9_lock_renewal (cfg : CoreConfig) (env : AgentEnv)
    (skills_info : List SkillInfo) (dc : String) (mi : Int) (la : LockArgs)
    (queue : List SkillLearnDistilled) (fuel : Nat)
    (h1 : pyTruthyStr la.lock_key = true)
    (h2 : pyTruthyInt la.lock_ttl_seconds = true) :
    (skill_learner_agent cfg env skills_info dc mi la queue fuel).renewCount =
      (skill_learner_agent cfg env skills_info dc mi la queue
        fuel).finalState.alreadyIterations ∧
    ∀ r2 : Nat → Bool,
      skill_learner_agent cfg { env with renew := r2 } skills_info dc mi la
          queue fuel =
        skill_learner_agent cfg env skills_info dc mi la queue fuel := by
  constructor
  · unfold skill_learner_agent
    rw [agentResultOf_renewCount, agentResultOf_finalState]
    have hrn := runLoop_renew cfg env la (by rw [h1, h2]; rfl) fuel
      (initialLoopState cfg skills_info dc mi queue)
    have hz1 : (initialLoopState cfg skills_info dc mi queue).renewCount = 0 :=
      rfl
    have hz2 : (initialLoopState cfg skills_info dc mi
        queue).alreadyIterations = 0 := rfl
    omega
  · intro r2
    unfold skill_learner_agent
    rw [runLoop_renew_irrel]

/-- Claim C9, witness: a run with one tool iteration and a lock handle
renews exactly once — once per completed iteration. -/
theorem claim_C9_witness :
    (skill_learner_agent cfgW envOneTool [] "ctx" 5 laW [] 5).renewCount =
      (skill_learner_agent cfgW envOneTool [] "ctx" 5 laW []
        5).finalState.alreadyIterations :=
  (claim_C9_lock_renewal cfgW envOneTool [] "ctx" 5 laW [] 5
    (by decide) (by decide)).1

/-- Claim C3 — a mid-run drain returning a non-empty batch (of any size)
extends `max_iterations` by exactly
`skill_learn_extra_iterations_per_context_batch` and overrides
`just_finish` to false, so the iteration continues the loop even when the
LM issued `finish` in the same iteration; a drain returning the empty
batch changes neither `max_iterations` nor `just_finish`. -/
theorem claim_C3_mid_run_extension (cfg : CoreConfig) (env : AgentEnv)
    (la : LockArgs) (s : LoopState) (jf : Bool) :
    ((midRunDrain cfg env s jf).2.2 ≠ [] →
      (midRunDrain cfg env s jf).1.maxIterations =
        s.maxIterations +
          cfg.skill_learn_extra_iterations_per_context_batch ∧
      (midRunDrain cfg env s jf).2.1 = false ∧
      ∃ s2, afterDrainStep env la (midRunDrain cfg env s jf) = .next s2) ∧
    ((midRunDrain cfg env s jf).2.2 = [] →
      (midRunDrain cfg env s jf).1.maxIterations = s.maxIterations ∧
      (midRunDrain cfg env s jf).2.1 = jf) := by
  unfold midRunDrain
  dsimp only
  split_ifs with h1 h2
  · refine ⟨fun _ => ⟨rfl, rfl, ?_⟩, fun hc => ?_⟩
    · exact ⟨_, by unfold afterDrainStep; rfl⟩
    · exact absurd hc h2
  · exact ⟨fun hc => absurd rfl hc, fun _ => ⟨rfl, rfl⟩⟩
  · exact ⟨fun hc => absurd rfl hc, fun _ => ⟨rfl, rfl⟩⟩

/-- Claim C3, witness: one item arrives mid-run while the LM issued
`finish`: the budget grows from 2 to 2 + 3 and the loop continues. -/
theorem claim_C3_witness :
    (midRunDrain cfgW envMid sW true).1.maxIterations =
      sW.maxIterations +
        cfgW.skill_learn_extra_iterations_per_context_batch ∧
    (midRunDrain cfgW envMid sW true).2.1 = false ∧
    ∃ s2, afterDrainStep envMid laW (midRunDrain cfgW envMid sW true) =
      .next s2 :=
  (claim_C3_mid_run_extension cfgW envMid laW sW true).1 (by decide)

/-- Claim C5 (amended) — on every successful run the returned id list is
exactly the session ids of the drained contexts, in drain order; the
function itself never inserts the live session's id (the live input is
only a string), though the list can contain that id when a drained queue
item carried it; and the consumer then marks completed exactly the union
of the live session id and the returned ids. -/
theorem claim_C5_success_ids (cfg : CoreConfig) (env : AgentEnv)
    (skills_info : List SkillInfo) (dc : String) (mi : Int) (la : LockArgs)
    (queue : List SkillLearnDistilled) (fuel : Nat) (sids : List Nat)
    (hok : (skill_learner_agent cfg env skills_info dc mi la queue
      fuel).outcome = .ok sids) :
    sids = (skill_learner_agent cfg env skills_info dc mi la queue
      fuel).drained.map (fun it => it.session_id) ∧
    ∀ (cenv : ConsumerEnv) (body : SkillLearnDistilled)
      (st : ConsumerState) (q2 : List SkillLearnDistilled),
      st.lockHeld = false →
      cenv.agentRun st.queue = (.resolve sids, q2) →
      ∀ x, CEvent.setStatus x SessionStatus.completed ∈
        (process_skill_agent cenv body st).1 ↔
        (x = body.session_id ∨ x ∈ sids) := by
  constructor
  · unfold skill_learner_agent at hok ⊢
    have hh := (agentResultOf_ok_iff _ sids).mp hok
    rw [agentResultOf_drained]
    exact hh.2
  · intro cenv body st q2 hlock hrun
    exact process_skill_agent_completed_mem cenv body st sids q2 hlock hrun

/-- Claim C5, counterexample to the claim as stated: the pending queue
holds a context parked by an earlier delivery of the very session that is
now the live input (session id 7).  The run succeeds and its returned id
list contains the live session's id — `run(...)` does not exclude it. -/
theorem claim_C5_counterexample :
    (skill_learner_agent cfgW envStop [] bodyLive.distilled_context 5 laW
      [item7] 2).outcome = .ok [7] ∧
    bodyLive.session_id = 7 ∧ item7.session_id = 7 :=
  ⟨rfl, rfl, rfl⟩

/-- Claim C5, witness for the amended statement: in the same scenario the
returned ids are exactly the drained contexts' session ids. -/
theorem claim_C5_witness :
    ([7] : List Nat) =
      (skill_learner_agent cfgW envStop [] bodyLive.distilled_context 5 laW
        [item7] 2).drained.map (fun it => it.session_id) :=
  (claim_C5_success_ids cfgW envStop [] bodyLive.distilled_context 5 laW
    [item7] 2 [7] rfl).1

/-- Claim C10 — with `max_iterations ≤ 0` the `while` guard fails at once:
the entry drain still executes (consuming up to
`skill_learn_max_contexts_per_agent_run` items), the run succeeds carrying
exactly the drained contexts' session ids, no LM call and no tool dispatch
happens; through the consumer, those drained sessions (plus the live one)
are then marked completed without any agent processing. -/
theorem claim_C10_nonpositive_budget (cfg : CoreConfig) (env : AgentEnv)
    (skills_info : List SkillInfo) (dc : String) (mi : Int) (la : LockArgs)
    (queue : List SkillLearnDistilled) (fuel : Nat)
    (hmi : mi ≤ 0) (hfuel : 0 < fuel) :
    (skill_learner_agent cfg env skills_info dc mi la queue fuel).outcome =
      .ok ((drain_skill_learn_pending queue
        (some cfg.skill_learn_max_contexts_per_agent_run)).1.map
          (fun it => it.session_id)) ∧
    (skill_learner_agent cfg env skills_info dc mi la queue fuel).lmCalls
      = 0 ∧
    (skill_learner_agent cfg env skills_info dc mi la queue
      fuel).dispatchCount = 0 ∧
    (skill_learner_agent cfg env skills_info dc mi la queue fuel).drained =
      (drain_skill_learn_pending queue
        (some cfg.skill_learn_max_contexts_per_agent_run)).1 ∧
    (skill_learner_agent cfg env skills_info dc mi la queue fuel).pending =
      (drain_skill_learn_pending queue
        (some cfg.skill_learn_max_contexts_per_agent_run)).2.1 ∧
    (∀ (body : SkillLearnDistilled) (st : ConsumerState),
      st.lockHeld = false →
      ∀ x, CEvent.setStatus x SessionStatus.completed ∈
        (process_skill_agent
          (consumerEnvOfAgent cfg env skills_info dc mi la fuel) body st).1 ↔
        (x = body.session_id ∨
          x ∈ (drain_skill_learn_pending st.queue
            (some cfg.skill_learn_max_contexts_per_agent_run)).1.map
              (fun it => it.session_id))) := by
  have hrl : ∀ q : List SkillLearnDistilled,
      runLoop cfg env la fuel (initialLoopState cfg skills_info dc mi q) =
        (.success, initialLoopState cfg skills_info dc mi q) := by
    intro q
    cases fuel with
    | zero => omega
    | succ n =>
        unfold runLoop
        rw [if_neg]
        rw [show (initialLoopState cfg skills_info dc mi
            q).alreadyIterations = 0 from rfl,
          show (initialLoopState cfg skills_info dc mi q).maxIterations =
            mi from rfl]
        push_cast
        omega
  have hcore : ∀ q : List SkillLearnDistilled,
      skill_learner_agent cfg env skills_info dc mi la q fuel =
        agentResultOf (.success, initialLoopState cfg skills_info dc mi q) :=
    fun q => by unfold skill_learner_agent; rw [hrl q]
  refine ⟨?_, ?_, ?_, ?_, ?_, ?_⟩
  · rw [hcore queue]
    rfl
  · rw [hcore queue]
    rfl
  · rw [hcore queue]
    rfl
  · rw [hcore queue]
    rfl
  · rw [hcore queue]
    rfl
  · intro body st hlock x
    have hrun : (consumerEnvOfAgent cfg env skills_info dc mi la
        fuel).agentRun st.queue =
        (.resolve ((drain_skill_learn_pending st.queue
          (some cfg.skill_learn_max_contexts_per_agent_run)).1.map
            (fun it => it.session_id)),
         (skill_learner_agent cfg env skills_info dc mi la st.queue
           fuel).pending) := by
      unfold consumerEnvOfAgent
      dsimp only
      rw [hcore st.queue]
      rfl
    exact process_skill_agent_completed_mem _ body st _ _ hlock hrun x

/-- Claim C10, witness: budget 0, two pending items — the run drains and
returns both session ids with zero LM calls. -/
theorem claim_C10_witness :
    (skill_learner_agent cfgW envStop [] "ctx" 0 laNone [itemA, itemB]
      1).outcome =
      .ok ((drain_skill_learn_pending [itemA, itemB]
        (some cfgW.skill_learn_max_contexts_per_agent_run)).1.map
          (fun it => it.session_id)) ∧
    (skill_learner_agent cfgW envStop [] "ctx" 0 laNone [itemA, itemB]
      1).lmCalls = 0 :=
  ⟨(claim_C10_nonpositive_budget cfgW envStop [] "ctx" 0 laNone
      [itemA, itemB] 1 (by omega) (by omega)).1,
   (claim_C10_nonpositive_budget cfgW envStop [] "ctx" 0 laNone
      [itemA, itemB] 1 (by omega) (by omega)).2.1⟩

end Acontext
